import Mathlib

/-!
Verification development for the heroin-overdose EDA repository: a shallow
embedding, in Lean, of the data-assembly pipeline and spatio-temporal model of
the R Markdown notebook (global constants, covariate imputation, response
masking, adjacency-matrix construction, design grid, CAR full-conditional
formulas), together with a model of the MCMC sampler engine described by the
specification, and theorems settling the specification's claims against them.

Missing values (R's NA, and NaN which R's is.na also reports as missing) are
embedded as Option ℚ with none standing for a missing value; numeric columns
are ℚ.
-/

namespace HeroinEDA

/-! ## Global constants (source: Dependencies and Global Constants chunk) -/

/-- TRAINING_YEARS <- 2006:2017 -/
def TRAINING_YEARS : List ℕ := (List.range 12).map (fun i => 2006 + i)

/-- VALIDATION_YEAR <- 2018 -/
def VALIDATION_YEAR : ℕ := 2018

/-- TEST_YEAR <- 2019 -/
def TEST_YEAR : ℕ := 2019

/-- TERRITORY_FIPS <- c('60', '66', '69', '72', '78') -/
def TERRITORY_FIPS : List String := ["60", "66", "69", "72", "78"]

/-! ## Covariate imputation (source: Combined Data chunk, the grouped mutate)

One (year, state) group of the grouped data frame is embedded as a list of
rows carrying the three continuous covariates.  R's mean(x, na.rm = TRUE)
averages the non-missing values and returns NaN (missing) when none exist;
median(x, na.rm = TRUE) takes the middle order statistic, averaging the two
middle ones for an even count.  dplyr's mutate evaluates its assignments
sequentially, so the later replace_na calls see the already-imputed
pov_percent_all column; the embedding reproduces that sequencing. -/

structure CovRow where
  povPercentAll : Option ℚ
  povPercentMinors : Option ℚ
  medianIncome : Option ℚ
deriving DecidableEq

/-- The non-missing values of a column, in row order. -/
def naVals : List (Option ℚ) → List ℚ
  | [] => []
  | none :: xs => naVals xs
  | some v :: xs => v :: naVals xs

/-- mean(x, na.rm = TRUE): none when every value is missing. -/
def naMean (xs : List (Option ℚ)) : Option ℚ :=
  if naVals xs = [] then none else some ((naVals xs).sum / (naVals xs).length)

/-- Insert into an ascending list, keeping it ascending. -/
def insertSorted (a : ℚ) : List ℚ → List ℚ
  | [] => [a]
  | b :: bs => if a ≤ b then a :: b :: bs else b :: insertSorted a bs

/-- Ascending sort of a list of rationals. -/
def sortAsc (l : List ℚ) : List ℚ := l.foldr insertSorted []

/-- The sample median of a nonempty list: middle order statistic, or the
average of the two middle ones for an even count. -/
def rMedian (l : List ℚ) : ℚ :=
  if l.length % 2 = 1 then (sortAsc l).getD (l.length / 2) 0
  else ((sortAsc l).getD (l.length / 2 - 1) 0 + (sortAsc l).getD (l.length / 2) 0) / 2

/-- median(x, na.rm = TRUE): none when every value is missing. -/
def naMedian (xs : List (Option ℚ)) : Option ℚ :=
  if naVals xs = [] then none else some (rMedian (naVals xs))

/-- replace_na(x, m): keep observed values, substitute m for missing ones.
When m is itself missing (NaN group statistic) the cell stays missing. -/
def replaceNa (x m : Option ℚ) : Option ℚ :=
  match x with
  | some v => some v
  | none => m

/-- The grouped mutate of the Combined Data chunk, exactly as coded:
pov_percent_all is imputed from mean(pov_percent_all); pov_percent_minors is
imputed from mean(pov_percent_all) (not its own column); median_income is
imputed from median(pov_percent_all) (not its own column).  Assignments are
sequential, so the two later statistics are computed over the already-imputed
pov_percent_all column. -/
def imputeGroup (g : List CovRow) : List CovRow :=
  let m1 := naMean (g.map (fun r => r.povPercentAll))
  let g1 := g.map (fun r => { r with povPercentAll := replaceNa r.povPercentAll m1 })
  let m2 := naMean (g1.map (fun r => r.povPercentAll))
  let g2 := g1.map (fun r => { r with povPercentMinors := replaceNa r.povPercentMinors m2 })
  let m3 := naMedian (g2.map (fun r => r.povPercentAll))
  g2.map (fun r => { r with medianIncome := replaceNa r.medianIncome m3 })

/-- The imputation the documentation intends (spec §4.2 and §9: impute each
covariate from its own grouped statistic): pov_percent_all and
pov_percent_minors from their own group means, median_income from its own
group median. -/
def imputeGroupIntended (g : List CovRow) : List CovRow :=
  let mAll := naMean (g.map (fun r => r.povPercentAll))
  let mMin := naMean (g.map (fun r => r.povPercentMinors))
  let mInc := naMedian (g.map (fun r => r.medianIncome))
  g.map (fun r =>
    { povPercentAll := replaceNa r.povPercentAll mAll
      povPercentMinors := replaceNa r.povPercentMinors mMin
      medianIncome := replaceNa r.medianIncome mInc })

/-- A (year, state) group exhibiting the copy-paste defect: the second row is
missing pov_percent_minors and median_income. -/
def c1RowA : CovRow := ⟨some 10, some 40, some 50000⟩

/-- Companion row of the defect-exhibiting group. -/
def c1RowB : CovRow := ⟨some 30, none, none⟩

/-! ## Response masking and residuals (source: Combined Data and Prototype
Modeling chunks) -/

/-- A data-frame row as far as masking and residuals are concerned. -/
structure DfRow where
  year : ℕ
  deathRate : Option ℚ
deriving DecidableEq

/-- masked_death_rate = case_when(year != VALIDATION_YEAR ~ death_rate):
the response fed to the model, missing on the validation year (case_when with
no catch-all yields NA). -/
def maskedDeathRate (r : DfRow) : Option ℚ :=
  if r.year ≠ VALIDATION_YEAR then r.deathRate else none

/-- residuals = death_rate - fitted: computed from the original, unmasked
death_rate column, so it is missing exactly when death_rate is. -/
def residualOf (r : DfRow) (fitted : ℚ) : Option ℚ :=
  r.deathRate.map (fun y => y - fitted)

/-! ## Time trend (source: model-description text, t* = (t - tbar)/N) -/

/-- mean of a list of rationals. -/
def rMean (l : List ℚ) : ℚ := l.sum / l.length

/-- The linear time trend of the source: t* = (t - tbar) / N where tbar is the
mean of the N time indices, computed once from the full list of time
indices. -/
def tstar (ts : List ℚ) (t : ℚ) : ℚ := (t - rMean ts) / ts.length

/-- Largest element of a list (base value for the empty list only). -/
def listMax (l : List ℚ) : ℚ := l.foldr max (l.headD 0)

/-- Smallest element of a list (base value for the empty list only). -/
def listMin (l : List ℚ) : ℚ := l.foldr min (l.headD 0)

/-- Modelled from the spec: span(t) read as the range max(t) - min(t) of the
time indices, the usual meaning of span; used by the spec's formula
t* = (t - mean(t)) / span(t). -/
def spanOf (l : List ℚ) : ℚ := listMax l - listMin l

/-- Modelled from the spec: the spec's trend formula
t* = (t - mean(t)) / span(t), to be compared with the source's tstar. -/
def tstarSpanVariant (ts : List ℚ) (t : ℚ) : ℚ := (t - rMean ts) / spanOf ts

/-! ## Helper lemmas -/

lemma naVals_eq_nil_of_all_none {xs : List (Option ℚ)} (h : ∀ x ∈ xs, x = none) :
    naVals xs = [] := by
  induction xs with
  | nil => rfl
  | cons x xs ih =>
    have hx := h x (by simp)
    subst hx
    exact (by simpa [naVals] using ih (fun y hy => h y (by simp [hy])))

lemma naVals_ne_nil (xs : List (Option ℚ)) (v : ℚ) (h : some v ∈ xs) :
    naVals xs ≠ [] := by
  induction xs with
  | nil => simp at h
  | cons x xs ih =>
    cases x with
    | some w => simp [naVals]
    | none =>
      have : some v ∈ xs := by simpa using h
      simpa [naVals] using ih this

lemma replaceNa_none (x : Option ℚ) : replaceNa x none = x := by
  cases x <;> rfl

lemma replaceNa_ne_none (x m : Option ℚ) (hm : m ≠ none) : replaceNa x m ≠ none := by
  cases x <;> simp [replaceNa, hm]

lemma covRow_update_pov (r : CovRow) :
    ({ r with povPercentAll := r.povPercentAll } : CovRow) = r := rfl

lemma covRow_update_minors (r : CovRow) :
    ({ r with povPercentMinors := r.povPercentMinors } : CovRow) = r := rfl

lemma covRow_update_income (r : CovRow) :
    ({ r with medianIncome := r.medianIncome } : CovRow) = r := rfl

lemma sum_map_sub_const (l : List ℚ) (m : ℚ) :
    (l.map (fun t => t - m)).sum = l.sum - l.length * m := by
  induction l with
  | nil => simp
  | cons a l ih => simp [ih]; ring

lemma sum_map_div_const (l : List ℚ) (f : ℚ → ℚ) (c : ℚ) :
    (l.map (fun t => f t / c)).sum = (l.map f).sum / c := by
  induction l with
  | nil => simp
  | cons a l ih => simp [ih, add_div]

/-! ## Claim theorems: imputation, residuals, time trend -/

/-- C1: the claim states that each continuous covariate is imputed from its
own column's grouped statistic.  The code instead imputes pov_percent_minors
from mean(pov_percent_all) and median_income from median(pov_percent_all);
the spec flags this copy-paste as a defect and documents own-column imputation
as the intent, so the code is the bug.  At the concrete failing group below,
the coded mutate yields 20 for both missing cells while the documented intent
yields 40 (own mean) and 50000 (own median). -/
theorem imputeGroup_copy_paste_defect :
    imputeGroup [c1RowA, c1RowB]
      = [⟨some 10, some 40, some 50000⟩, ⟨some 30, some 20, some 20⟩] ∧
    imputeGroupIntended [c1RowA, c1RowB]
      = [⟨some 10, some 40, some 50000⟩, ⟨some 30, some 40, some 50000⟩] := by
  constructor <;>
    simp [imputeGroup, imputeGroupIntended, c1RowA, c1RowB, naMean, naVals,
      naMedian, rMedian, sortAsc, insertSorted, replaceNa] <;>
    norm_num

/-- C8 counterexample: a group whose pov_percent_all column is missing in
every row is not rejected; the grouped mutate returns it unchanged, with the
covariate still missing (R: the group mean is NaN and replace_na substitutes
it), rather than failing with DataError before sampling. -/
theorem imputeGroup_all_missing_no_error :
    imputeGroup [⟨none, none, none⟩] = [⟨none, none, none⟩] := by
  simp [imputeGroup, naMean, naVals, naMedian, replaceNa]

/-- C8 amended: no DataError exists in the code.  All three fallback
statistics are computed from the pov_percent_all column, so two regimes
arise.  When pov_percent_all is missing for the entire (year, state) group,
every group statistic is missing (NaN) and the group passes through the
imputation unchanged — every missing covariate value, in any of the three
columns, persists as missing/non-finite in the assembled data.  When
pov_percent_all has at least one value in the group, every cell of all three
columns comes out non-missing (the missing ones filled from
pov_percent_all's statistics, per the C1 defect), so unimputed rows arise
exactly in the first regime, and in neither regime is an error raised before
sampling. -/
theorem imputeGroup_missing_group_behavior (g : List CovRow) :
    ((∀ r ∈ g, r.povPercentAll = none) → imputeGroup g = g) ∧
    ((∃ r ∈ g, r.povPercentAll ≠ none) → ∀ i, i < g.length →
      ((imputeGroup g).getD i ⟨none, none, none⟩).povPercentAll ≠ none ∧
      ((imputeGroup g).getD i ⟨none, none, none⟩).povPercentMinors ≠ none ∧
      ((imputeGroup g).getD i ⟨none, none, none⟩).medianIncome ≠ none) := by
  constructor
  · intro hall
    have hnil : naVals (g.map (fun r => r.povPercentAll)) = [] :=
      naVals_eq_nil_of_all_none (by
        intro x hx
        rcases List.mem_map.mp hx with ⟨r, hr, rfl⟩
        exact hall r hr)
    have hm1 : naMean (g.map (fun r => r.povPercentAll)) = none := by
      simp [naMean, hnil]
    have hm3 : naMedian (g.map (fun r => r.povPercentAll)) = none := by
      simp [naMedian, hnil]
    simp [imputeGroup, hm1, hm3, replaceNa_none,
      covRow_update_pov, covRow_update_minors, covRow_update_income]
  · intro hsome i hi
    obtain ⟨r0, hr0, hne⟩ := hsome
    cases h0 : r0.povPercentAll with
    | none => exact absurd h0 hne
    | some v =>
    have hm1 : naMean (g.map (fun r => r.povPercentAll)) ≠ none := by
      rw [naMean,
        if_neg (naVals_ne_nil _ v (List.mem_map.mpr ⟨r0, hr0, h0⟩))]
      simp
    have hlen : (imputeGroup g).length = g.length := by simp [imputeGroup]
    rw [List.getD_eq_getElem _ _ (by rw [hlen]; exact hi)]
    simp only [imputeGroup, List.getElem_map]
    refine ⟨replaceNa_ne_none _ _ hm1, replaceNa_ne_none _ _ ?_, replaceNa_ne_none _ _ ?_⟩
    · rw [naMean]
      rw [if_neg (naVals_ne_nil _ v (List.mem_map.mpr
        ⟨_, List.mem_map.mpr ⟨r0, hr0, rfl⟩, by simp [replaceNa, h0]⟩))]
      simp
    · rw [naMedian]
      rw [if_neg (naVals_ne_nil _ v (List.mem_map.mpr
        ⟨_, List.mem_map.mpr ⟨_, List.mem_map.mpr ⟨r0, hr0, rfl⟩, rfl⟩,
          by simp [replaceNa, h0]⟩))]
      simp

/-- C8 amended, witness: a one-row group with pov_percent_all missing passes
through unchanged (its other missing covariate stays missing), while a group
whose pov_percent_all has a value gets its missing pov_percent_minors
filled. -/
theorem imputeGroup_missing_group_behavior_witness :
    imputeGroup [⟨none, some 5, some 6⟩] = [⟨none, some 5, some 6⟩] ∧
    ((imputeGroup [⟨some 4, none, none⟩]).getD 0 ⟨none, none, none⟩).povPercentMinors ≠ none :=
  ⟨(imputeGroup_missing_group_behavior [⟨none, some 5, some 6⟩]).1
      (by intro r hr; simp at hr; simp [hr]),
   ((imputeGroup_missing_group_behavior [⟨some 4, none, none⟩]).2
      ⟨⟨some 4, none, none⟩, by simp, by simp⟩ 0 (by simp)).2.1⟩

/-- C2 counterexample: a validation-year row whose death_rate is observed is
held out of the likelihood (masked_death_rate is missing) yet its residual is
defined: residuals = death_rate - fitted uses the original, unmasked column,
so with death_rate 10 and fitted 7 the residual is 3, not NaN. -/
theorem residual_defined_on_validation_row :
    maskedDeathRate ⟨VALIDATION_YEAR, some 10⟩ = none ∧
    residualOf ⟨VALIDATION_YEAR, some 10⟩ 7 = some 3 ∧
    residualOf ⟨VALIDATION_YEAR, some 10⟩ 7 ≠ none := by
  refine ⟨by simp [maskedDeathRate], ?_, ?_⟩ <;> simp [residualOf] <;> norm_num

/-- C2 amended: the residual is observed-minus-fitted computed from the
original death_rate column for every row, held-out validation rows included;
it is undefined exactly when death_rate itself is missing.  Held-out-ness
shows up only in the model response: validation-year rows have a missing
masked_death_rate. -/
theorem residual_follows_death_rate (r : DfRow) (f : ℚ) :
    (residualOf r f = none ↔ r.deathRate = none) ∧
    (∀ v, r.deathRate = some v → residualOf r f = some (v - f)) ∧
    (r.year = VALIDATION_YEAR → maskedDeathRate r = none) := by
  refine ⟨?_, ?_, ?_⟩
  · cases h : r.deathRate <;> simp [residualOf, h]
  · intro v hv; simp [residualOf, hv]
  · intro hy; simp [maskedDeathRate, hy]

/-- C2 amended, witness at a concrete validation-year row. -/
theorem residual_follows_death_rate_witness :
    residualOf ⟨2018, some 10⟩ 7 = some (10 - 7) ∧
    maskedDeathRate ⟨2018, some 10⟩ = none :=
  ⟨(residual_follows_death_rate ⟨2018, some 10⟩ 7).2.1 10 rfl,
   (residual_follows_death_rate ⟨2018, some 10⟩ 7).2.2 rfl⟩

/-- C6 counterexample: the source divides the centered time index by the
number N of time points, not by the span max - min; on time indices 1, 2, 3
the source's trend at t = 3 is 1/3 while the spec's span formula gives
1/2. -/
theorem tstar_ne_span_variant :
    tstar [1, 2, 3] 3 ≠ tstarSpanVariant [1, 2, 3] 3 := by
  norm_num [tstar, tstarSpanVariant, rMean, spanOf, listMax, listMin]

lemma tstar_sum_and_mul (ts : List ℚ) (h : ts ≠ []) :
    (ts.map (tstar ts)).sum = 0 ∧
    ∀ t, tstar ts t * ts.length = t - rMean ts := by
  have hlen : (ts.length : ℚ) ≠ 0 :=
    Nat.cast_ne_zero.mpr (List.length_pos.mpr h).ne'
  constructor
  · have h1 : (ts.map (tstar ts)).sum = (ts.map (fun t => t - rMean ts)).sum / ts.length := by
      simpa [tstar] using sum_map_div_const ts (fun t => t - rMean ts) ts.length
    rw [h1, sum_map_sub_const, rMean, mul_div_cancel₀ _ hlen, sub_self, zero_div]
  · intro t
    rw [tstar, div_mul_cancel₀ _ hlen]

/-! ## County adjacency (source: County Adjacency Matrix chunk)

The edge list is filtered (self-loops out, territory FIPS prefixes out),
arranged by (fipscounty, fipsneighbor), and written into a zero-initialized
matrix: entry (i, j) is 1 exactly when (i, j) is a row of the filtered edge
list.  The matrix is embedded as the weight function adjWeight. -/

/-- The filter of the county_adj pipeline: fipsneighbor != fipscounty and the
first two characters of fipscounty not a territory code. -/
def filterAdj (edges : List (String × String)) : List (String × String) :=
  edges.filter (fun e => e.2 != e.1 && !(TERRITORY_FIPS.contains (e.1.take 2)))

/-- Lexicographic order used by arrange(fipscounty, fipsneighbor). -/
def pairLe (a b : String × String) : Bool :=
  decide (a.1 < b.1) || (a.1 == b.1 && decide (a.2 ≤ b.2))

/-- county_adj: the filtered edge list arranged by (fipscounty, fipsneighbor). -/
def countyAdj (edges : List (String × String)) : List (String × String) :=
  (filterAdj edges).mergeSort pairLe

/-- county_adj_matrix entry: 1 when (i, j) is a row of county_adj (the
assignment county_adj_matrix[as.matrix(county_adj)] <- 1L), 0 otherwise (the
matrix is created filled with zeros). -/
def adjWeight (edges : List (String × String)) (i j : String) : ℚ :=
  if (i, j) ∈ countyAdj edges then 1 else 0

/-- fips <- unique(county_adj$fipscounty): the entity index. -/
def fipsIndex (edges : List (String × String)) : List String :=
  ((countyAdj edges).map Prod.fst).dedup

/-- An edge list that is asymmetric (each county occurs as a source, so the R
matrix assignment succeeds) used to exhibit that asymmetry is preserved. -/
def asymEdges : List (String × String) :=
  [("01001", "01003"), ("01003", "01005"), ("01005", "01001")]

/-- A symmetric two-edge list. -/
def symEdges : List (String × String) :=
  [("01001", "01003"), ("01003", "01001")]

/-! ## Design grid (source: Combined Data chunk, expand_grid + arrange) -/

/-- The years of the assembled frame: c(TRAINING_YEARS, VALIDATION_YEAR). -/
def studyYears : List ℕ := TRAINING_YEARS ++ [VALIDATION_YEAR]

/-- Lexicographic order used by arrange(year, fips). -/
def yearFipsLe (a b : ℕ × String) : Bool :=
  decide (a.1 < b.1) || (a.1 == b.1 && decide (a.2 ≤ b.2))

/-- The (year, fips) keys of df: expand_grid over the study years and the
entity index, then arrange(year, fips).  The subsequent left_joins attach
columns by key and the mutate adds columns, neither changing the key set. -/
def designKeys (fips : List String) : List (ℕ × String) :=
  (studyYears ×ˢ fips).mergeSort yearFipsLe

/-! ## Claim theorems: adjacency and design grid -/

/-- C7 counterexample: the construction neither raises an error on an
asymmetric edge list nor normalizes it — on asymEdges the matrix stores
weight("01001", "01003") = 1 but weight("01003", "01001") = 0, an asymmetric
result. -/
theorem adjWeight_asymmetry_preserved :
    adjWeight asymEdges "01001" "01003" = 1 ∧
    adjWeight asymEdges "01003" "01001" = 0 ∧
    adjWeight asymEdges "01001" "01003" ≠ adjWeight asymEdges "01003" "01001" := by
  have h1 : ("01001", "01003") ∈ countyAdj asymEdges := by
    rw [countyAdj, List.mem_mergeSort]; decide
  have h2 : ("01003", "01001") ∉ countyAdj asymEdges := by
    rw [countyAdj, List.mem_mergeSort]; decide
  refine ⟨by simp [adjWeight, h1], by simp [adjWeight, h2], ?_⟩
  simp [adjWeight, h1, h2]

/-- C7 amended: the diagonal is always zero (self-loops are filtered out),
and the matrix is symmetric when the filtered edge list is closed under
swapping — which the NBER adjacency list is — but an asymmetric edge list is
neither rejected with DataError nor normalized: its asymmetry persists in the
weights. -/
theorem adjWeight_diag_zero_and_conditional_symmetry (edges : List (String × String)) :
    (∀ i, adjWeight edges i i = 0) ∧
    ((∀ p ∈ filterAdj edges, (p.2, p.1) ∈ filterAdj edges) →
      ∀ i j, adjWeight edges i j = adjWeight edges j i) := by
  constructor
  · intro i
    have hnot : (i, i) ∉ countyAdj edges := by
      rw [countyAdj, List.mem_mergeSort]
      intro hmem
      have := (List.mem_filter.mp hmem).2
      simp at this
    simp [adjWeight, hnot]
  · intro hclosure i j
    have hiff : ((i, j) ∈ countyAdj edges) ↔ ((j, i) ∈ countyAdj edges) := by
      simp only [countyAdj, List.mem_mergeSort]
      exact ⟨fun hm => hclosure (i, j) hm, fun hm => hclosure (j, i) hm⟩
    by_cases h : (i, j) ∈ countyAdj edges
    · simp only [adjWeight]
      rw [if_pos h, if_pos (hiff.mp h)]
    · simp only [adjWeight]
      rw [if_neg h, if_neg (fun hc => h (hiff.mpr hc))]

/-- C7 amended, witness: on a concrete symmetric edge list the weights are
symmetric and the diagonal is zero. -/
theorem adjWeight_diag_zero_and_conditional_symmetry_witness :
    adjWeight symEdges "01001" "01003" = adjWeight symEdges "01003" "01001" ∧
    adjWeight symEdges "01001" "01001" = 0 :=
  ⟨(adjWeight_diag_zero_and_conditional_symmetry symEdges).2 (by decide) "01001" "01003",
   (adjWeight_diag_zero_and_conditional_symmetry symEdges).1 "01001"⟩

/-- yearFipsLe is transitive. -/
lemma yearFipsLe_trans (a b c : ℕ × String) :
    yearFipsLe a b = true → yearFipsLe b c = true → yearFipsLe a c = true := by
  simp only [yearFipsLe, Bool.or_eq_true, Bool.and_eq_true, decide_eq_true_eq, beq_iff_eq]
  rintro (h1 | ⟨h1e, h1s⟩) (h2 | ⟨h2e, h2s⟩)
  · exact Or.inl (lt_trans h1 h2)
  · exact Or.inl (h2e ▸ h1)
  · exact Or.inl (h1e ▸ h2)
  · exact Or.inr ⟨h1e.trans h2e, le_trans h1s h2s⟩

/-- yearFipsLe is total. -/
lemma yearFipsLe_total (a b : ℕ × String) :
    (yearFipsLe a b || yearFipsLe b a) = true := by
  simp only [yearFipsLe, Bool.or_eq_true, Bool.and_eq_true, decide_eq_true_eq, beq_iff_eq]
  rcases lt_trichotomy a.1 b.1 with h | h | h
  · exact Or.inl (Or.inl h)
  · rcases le_total a.2 b.2 with hs | hs
    · exact Or.inl (Or.inr ⟨h, hs⟩)
    · exact Or.inr (Or.inr ⟨h.symm, hs⟩)
  · exact Or.inr (Or.inl h)

/-- C10: the assembled frame has exactly one row per (year, entity) pair with
the year among the training years 2006-2017 or the validation year 2018 and
the entity in the adjacency-derived index; the rows are sorted by
(year, entity); and the configured test year 2019 appears in no row (hence in
no likelihood update, fitted value or residual, all of which are per-row). -/
theorem designKeys_spec (edges : List (String × String)) :
    (∀ y f, (y, f) ∈ designKeys (fipsIndex edges) ↔
      ((y ∈ TRAINING_YEARS ∨ y = VALIDATION_YEAR) ∧ f ∈ fipsIndex edges)) ∧
    (designKeys (fipsIndex edges)).length = 13 * (fipsIndex edges).length ∧
    (designKeys (fipsIndex edges)).Nodup ∧
    (designKeys (fipsIndex edges)).Pairwise (fun a b => yearFipsLe a b = true) ∧
    (∀ f, (TEST_YEAR, f) ∉ designKeys (fipsIndex edges)) := by
  have hmem : ∀ y f, (y, f) ∈ designKeys (fipsIndex edges) ↔
      ((y ∈ TRAINING_YEARS ∨ y = VALIDATION_YEAR) ∧ f ∈ fipsIndex edges) := by
    intro y f
    rw [designKeys, List.mem_mergeSort, List.mem_product]
    simp [studyYears]
  refine ⟨hmem, ?_, ?_, ?_, ?_⟩
  · rw [designKeys, List.length_mergeSort, List.length_product]
    have : studyYears.length = 13 := by decide
    rw [this]
  · exact ((List.mergeSort_perm _ _).nodup_iff).mpr
      (List.Nodup.product (by decide) (List.nodup_dedup _))
  · exact List.sorted_mergeSort yearFipsLe_trans yearFipsLe_total _
  · intro f hf
    have h := (hmem TEST_YEAR f).mp hf
    have : ¬ (TEST_YEAR ∈ TRAINING_YEARS ∨ TEST_YEAR = VALIDATION_YEAR) := by decide
    exact this h.1

/-- C10, witness: at a concrete edge list, the test year produces no row and
the key list is duplicate-free. -/
theorem designKeys_spec_witness :
    (TEST_YEAR, "01001") ∉ designKeys (fipsIndex symEdges) ∧
    (designKeys (fipsIndex symEdges)).Nodup :=
  ⟨(designKeys_spec symEdges).2.2.2.2 "01001", (designKeys_spec symEdges).2.2.1⟩

/-! ## CAR full conditionals (source: the model display, the phi_k and
delta_k full-conditional distributions of the Leroux prior) -/

/-- Sum of adjacency weights of entity k: the sum over j of w_kj. -/
def carDegree (W : ℕ → ℕ → ℚ) (K k : ℕ) : ℚ := ∑ j in Finset.range K, W k j

/-- Weighted neighbor sum: the sum over j of w_kj v_j. -/
def carNeighborSum (W : ℕ → ℕ → ℚ) (K k : ℕ) (v : List ℚ) : ℚ :=
  ∑ j in Finset.range K, W k j * v.getD j 0

/-- The shared denominator of the full-conditional mean and variance:
rho * (sum over j of w_kj) + 1 - rho. -/
def carCondDenom (rho : ℚ) (W : ℕ → ℕ → ℚ) (K k : ℕ) : ℚ :=
  rho * carDegree W K k + 1 - rho

/-- Full-conditional mean of phi_k (and symmetrically delta_k):
rho * (sum over j of w_kj v_j) divided by the shared denominator. -/
def carCondMean (rho : ℚ) (W : ℕ → ℕ → ℚ) (K k : ℕ) (v : List ℚ) : ℚ :=
  rho * carNeighborSum W K k v / carCondDenom rho W K k

/-- Full-conditional variance of phi_k: tau2 divided by the shared
denominator. -/
def carCondVariance (tau2 rho : ℚ) (W : ℕ → ℕ → ℚ) (K k : ℕ) : ℚ :=
  tau2 / carCondDenom rho W K k

/-! ## MCMC sampler engine

The sampler itself lives in the CARBayesST library (the ST.CARlinear call),
whose code is not part of this repository, so the engine below is modelled
from the specification's §4.3 state machine: validation, then burn_in +
n_sample Gibbs/Metropolis sweeps, thinning of the post-burn-in draws.
Randomness is an explicit stream of per-iteration draws; an Inverse-Gamma
variate is modelled as its scale divided by a positive Gamma variate taken
from the stream, and Gaussian draws are taken from the stream directly (their
conditional means do not affect the verified properties). -/

/-- Modelled from the spec: the error taxonomy of §7 (the source delegates
error signalling to the library, which is not in the repository). -/
inductive SamplerError
  | ConfigurationError
  | DataError
  | NumericalError
deriving DecidableEq

/-- Modelled from the spec: sampler configuration — burn-in, sample count,
thinning interval, and the Inverse-Gamma prior hyperparameters a, b (the
source leaves these to library defaults). -/
structure McmcConfig where
  burnIn : ℕ
  nSample : ℕ
  thin : ℕ
  aHyper : ℚ
  bHyper : ℚ

/-- One observation: entity index, time index, covariate vector, and the
(possibly masked) response. -/
structure Obs where
  entity : ℕ
  timeIdx : ℚ
  covariates : List ℚ
  response : Option ℚ

/-- Read-only model data: entity count, adjacency weights, the full list of
time indices, and the observations. -/
structure ModelData where
  K : ℕ
  W : ℕ → ℕ → ℚ
  times : List ℚ
  obs : List Obs

/-- The Parameter State of the spec's data model. -/
structure Params where
  beta : List ℚ
  phi : List ℚ
  delta : List ℚ
  alpha : ℚ
  tau2Int : ℚ
  tau2Slo : ℚ
  rhoInt : ℚ
  rhoSlo : ℚ
  nu2 : ℚ

/-- Modelled from the spec: the raw random draws consumed by one sweep of the
engine (the library's RNG is not in the repository).  Gamma variates must be
positive for the Inverse-Gamma draws to be well defined. -/
structure RandDraw where
  betaDraw : ℕ → ℚ
  phiNoise : ℕ → ℚ
  deltaNoise : ℕ → ℚ
  alphaDraw : ℚ
  gammaInt : ℚ
  gammaSlo : ℚ
  gammaNu : ℚ
  rhoIntStep : ℚ
  rhoSloStep : ℚ
  rhoIntAccept : Bool
  rhoSloAccept : Bool

/-- Dot product of two covariate vectors (excess entries ignored). -/
def dotProd : List ℚ → List ℚ → ℚ
  | a :: as, b :: bs => a * b + dotProd as bs
  | _, _ => 0

/-- The linear predictor of the model display: x'beta + phi_k +
(alpha + delta_k) * t*, with t* computed once from the full list of time
indices. -/
def linPred (d : ModelData) (beta phi delta : List ℚ) (alpha : ℚ) (o : Obs) : ℚ :=
  dotProd beta o.covariates + phi.getD o.entity 0
    + (alpha + delta.getD o.entity 0) * tstar d.times o.timeIdx

/-- Modelled from the spec: the Posterior Summarizer's fitted value per
observation (§4.4) — the linear predictor evaluated at the supplied
(posterior-mean) parameter values, using the same t* as the likelihood
(fitted(poverty_coal_model) is computed inside the library, absent from the
repository). -/
def fittedValue (d : ModelData) (beta phi delta : List ℚ) (alpha : ℚ) (o : Obs) : ℚ :=
  linPred d beta phi delta alpha o

/-- Sum of squared residuals over the observed (non-missing) responses only:
held-out rows contribute nothing to the likelihood. -/
def ssr (d : ModelData) (beta phi delta : List ℚ) (alpha : ℚ) : ℚ :=
  (d.obs.map (fun o =>
    match o.response with
    | some y => (y - linPred d beta phi delta alpha o) ^ 2
    | none => 0)).sum

/-- Re-centering of a random-effect vector: subtract its mean (spec §4.3
steps 2-3, identifiability). -/
def recenter (v : List ℚ) : List ℚ := v.map (fun x => x - v.sum / v.length)

/-- Modelled from the spec: the quadratic form phi' (D_w - rho W) phi of the
Leroux precision structure (§4.3 step 5), D_w the diagonal of weight sums. -/
def lerouxQuad (rho : ℚ) (W : ℕ → ℕ → ℚ) (K : ℕ) (v : List ℚ) : ℚ :=
  ∑ i in Finset.range K, carDegree W K i * v.getD i 0 ^ 2
    - rho * ∑ i in Finset.range K, ∑ j in Finset.range K, W i j * v.getD i 0 * v.getD j 0

/-- Modelled from the spec: the Metropolis step for a smoothness parameter
(§4.3 step 6) — a random-walk proposal rho + step, rejected without likelihood
evaluation when outside [0,1), otherwise accepted or not per the
acceptance draw (the acceptance-ratio comparison is abstracted into the
Boolean). -/
def rhoMetropolis (rho step : ℚ) (accept : Bool) : ℚ :=
  if 0 ≤ rho + step ∧ rho + step < 1 ∧ accept = true then rho + step else rho

/-- Modelled from the spec: one Gibbs/Metropolis sweep in the update order of
§4.3 — beta; phi (CAR full-conditional mean plus noise, then re-centered);
delta likewise; alpha; tau2_int and tau2_slo by conjugate Inverse-Gamma with
scale b + quadratic-form/2; rho_int and rho_slo by the restricted Metropolis
step; nu2 by conjugate Inverse-Gamma from the sum of squared residuals of the
observed responses. -/
def gibbsSweep (d : ModelData) (cfg : McmcConfig) (r : RandDraw) (s : Params) : Params :=
  let beta1 := (List.range s.beta.length).map r.betaDraw
  let phi1 := recenter ((List.range d.K).map
    (fun k => carCondMean s.rhoInt d.W d.K k s.phi + r.phiNoise k))
  let delta1 := recenter ((List.range d.K).map
    (fun k => carCondMean s.rhoSlo d.W d.K k s.delta + r.deltaNoise k))
  let alpha1 := r.alphaDraw
  { beta := beta1
    phi := phi1
    delta := delta1
    alpha := alpha1
    tau2Int := (cfg.bHyper + lerouxQuad s.rhoInt d.W d.K phi1 / 2) / r.gammaInt
    tau2Slo := (cfg.bHyper + lerouxQuad s.rhoSlo d.W d.K delta1 / 2) / r.gammaSlo
    rhoInt := rhoMetropolis s.rhoInt r.rhoIntStep r.rhoIntAccept
    rhoSlo := rhoMetropolis s.rhoSlo r.rhoSloStep r.rhoSloAccept
    nu2 := (cfg.bHyper + ssr d beta1 phi1 delta1 alpha1 / 2) / r.gammaNu }

/-- Modelled from the spec: the Parameter State after n iterations of the
engine's strictly sequential chain. -/
def chainState (d : ModelData) (cfg : McmcConfig) (stream : ℕ → RandDraw)
    (init : Params) : ℕ → Params
  | 0 => init
  | n + 1 => gibbsSweep d cfg (stream n) (chainState d cfg stream init n)

/-- Modelled from the spec: the retained chain — of the post-burn-in draws
1..n_sample, every thin-th is kept, i.e. draw j of iteration burn_in + j is
retained when thin divides j. -/
def retainedSamples (d : ModelData) (cfg : McmcConfig) (stream : ℕ → RandDraw)
    (init : Params) : List Params :=
  (((List.range cfg.nSample).map (fun j => j + 1)).filter
    (fun j => j % cfg.thin == 0)).map
    (fun j => chainState d cfg stream init (cfg.burnIn + j))

/-- Modelled from the spec: the engine entry point — configurations with
n_sample = 0 or thin not dividing n_sample fail with ConfigurationError
before any sampling iteration executes; otherwise the retained chain is
produced. -/
def runSampler (d : ModelData) (cfg : McmcConfig) (stream : ℕ → RandDraw)
    (init : Params) : Except SamplerError (List Params) :=
  if 0 < cfg.nSample ∧ cfg.nSample % cfg.thin = 0 then
    Except.ok (retainedSamples d cfg stream init)
  else
    Except.error SamplerError.ConfigurationError

/-- The per-iteration invariant of the spec's data model: positive variance
parameters, smoothness parameters in [0,1). -/
def ParamsInv (s : Params) : Prop :=
  0 < s.tau2Int ∧ 0 < s.tau2Slo ∧ 0 < s.nu2 ∧
  0 ≤ s.rhoInt ∧ s.rhoInt < 1 ∧ 0 ≤ s.rhoSlo ∧ s.rhoSlo < 1

/-- Modelled from the spec: a 64-bit linear congruential generator standing
in for the library's seeded RNG. -/
def lcg (x : ℕ) : ℕ :=
  (6364136223846793005 * x + 1442695040888963407) % 18446744073709551616

/-- Iterated LCG values from a seed. -/
def lcgIter (seed : ℕ) : ℕ → ℕ
  | 0 => lcg seed
  | n + 1 => lcg (lcgIter seed n)

/-- A draw in (0, 1] derived from an LCG value (used for Gamma variates,
which must be positive). -/
def unitDraw (x : ℕ) : ℚ := ((x % 1000 : ℕ) + 1 : ℚ) / 1001

/-- A draw in [-1, 1] derived from an LCG value. -/
def symDraw (x : ℕ) : ℚ := ((x % 2001 : ℕ) : ℚ) / 1000 - 1

/-- Modelled from the spec: the per-iteration random draws as a deterministic
function of the seed, via the LCG stream. -/
def streamOfSeed (seed : ℕ) : ℕ → RandDraw := fun n =>
  { betaDraw := fun i => symDraw (lcgIter seed (8 * n) + i)
    phiNoise := fun k => symDraw (lcgIter seed (8 * n + 1) + k)
    deltaNoise := fun k => symDraw (lcgIter seed (8 * n + 2) + k)
    alphaDraw := symDraw (lcgIter seed (8 * n + 3))
    gammaInt := unitDraw (lcgIter seed (8 * n + 4))
    gammaSlo := unitDraw (lcgIter seed (8 * n + 5))
    gammaNu := unitDraw (lcgIter seed (8 * n + 6))
    rhoIntStep := symDraw (lcgIter seed (8 * n + 7))
    rhoSloStep := symDraw (lcg (lcgIter seed (8 * n + 7)))
    rhoIntAccept := lcgIter seed (8 * n + 4) % 2 == 0
    rhoSloAccept := lcgIter seed (8 * n + 5) % 2 == 0 }

/-- Modelled from the spec: a full run as a function of data, configuration,
seed and initial state only — no other input reaches the engine. -/
def runSeeded (d : ModelData) (cfg : McmcConfig) (seed : ℕ)
    (init : Params) : Except SamplerError (List Params) :=
  runSampler d cfg (streamOfSeed seed) init

/-- A zero-weight (fully disconnected) adjacency function on one entity. -/
def demoW : ℕ → ℕ → ℚ := fun _ _ => 0

/-- A one-entity, two-year demonstration data set; the second observation is
held out. -/
def demoData : ModelData := ⟨1, demoW, [1, 2], [⟨0, 1, [], some 1⟩, ⟨0, 2, [], none⟩]⟩

/-- The demonstration data with its time-index list permuted ([2, 1] for
[1, 2]): a different list with the same mean and count, hence the same t*
function. -/
def demoDataPerm : ModelData := ⟨1, demoW, [2, 1], [⟨0, 1, [], some 1⟩, ⟨0, 2, [], none⟩]⟩

/-- A constant randomness stream with unit Gamma variates. -/
def demoStream : ℕ → RandDraw :=
  fun _ => ⟨fun _ => 0, fun _ => 0, fun _ => 0, 0, 1, 1, 1, 0, 0, true, true⟩

/-- An initial Parameter State satisfying the invariant. -/
def demoInit : Params := ⟨[], [0], [0], 0, 1, 1, 0, 0, 1⟩

/-- A demonstration configuration: burn-in 2, four samples, thinning 2. -/
def demoCfg : McmcConfig := ⟨2, 4, 2, 1, 1⟩

/-! ## Engine lemmas -/

lemma ssr_nonneg (d : ModelData) (beta phi delta : List ℚ) (alpha : ℚ) :
    0 ≤ ssr d beta phi delta alpha := by
  apply List.sum_nonneg
  intro x hx
  rcases List.mem_map.mp hx with ⟨o, _, rfl⟩
  cases h : o.response <;> simp [h] <;> positivity

lemma double_sum_sq_expand (W : ℕ → ℕ → ℚ) (K : ℕ) (f : ℕ → ℚ)
    (hsym : ∀ i j, W i j = W j i) :
    ∑ i in Finset.range K, ∑ j in Finset.range K, W i j * (f i - f j) ^ 2
      = 2 * (∑ i in Finset.range K, (∑ j in Finset.range K, W i j) * f i ^ 2)
        - 2 * ∑ i in Finset.range K, ∑ j in Finset.range K, W i j * f i * f j := by
  have hA : ∑ i in Finset.range K, ∑ j in Finset.range K, W i j * f i ^ 2
      = ∑ i in Finset.range K, (∑ j in Finset.range K, W i j) * f i ^ 2 :=
    Finset.sum_congr rfl (fun i _ => by rw [Finset.sum_mul])
  have hC : ∑ i in Finset.range K, ∑ j in Finset.range K, W i j * f j ^ 2
      = ∑ i in Finset.range K, (∑ j in Finset.range K, W i j) * f i ^ 2 := by
    rw [Finset.sum_comm]
    refine Finset.sum_congr rfl (fun j _ => ?_)
    rw [Finset.sum_mul]
    exact Finset.sum_congr rfl (fun i _ => by rw [hsym i j])
  calc ∑ i in Finset.range K, ∑ j in Finset.range K, W i j * (f i - f j) ^ 2
      = ∑ i in Finset.range K, ∑ j in Finset.range K,
          (W i j * f i ^ 2 - 2 * (W i j * f i * f j) + W i j * f j ^ 2) :=
        Finset.sum_congr rfl (fun i _ => Finset.sum_congr rfl (fun j _ => by ring))
    _ = (∑ i in Finset.range K, ∑ j in Finset.range K, W i j * f i ^ 2)
        - 2 * (∑ i in Finset.range K, ∑ j in Finset.range K, W i j * f i * f j)
        + ∑ i in Finset.range K, ∑ j in Finset.range K, W i j * f j ^ 2 := by
        simp only [Finset.sum_add_distrib, Finset.sum_sub_distrib, ← Finset.mul_sum]
    _ = 2 * (∑ i in Finset.range K, (∑ j in Finset.range K, W i j) * f i ^ 2)
        - 2 * ∑ i in Finset.range K, ∑ j in Finset.range K, W i j * f i * f j := by
        rw [hA, hC]; ring

lemma quad_form_nonneg (rho : ℚ) (W : ℕ → ℕ → ℚ) (K : ℕ) (f : ℕ → ℚ)
    (hsym : ∀ i j, W i j = W j i) (hnn : ∀ i j, 0 ≤ W i j)
    (h0 : 0 ≤ rho) (h1 : rho ≤ 1) :
    0 ≤ (∑ i in Finset.range K, (∑ j in Finset.range K, W i j) * f i ^ 2)
      - rho * ∑ i in Finset.range K, ∑ j in Finset.range K, W i j * f i * f j := by
  have key := double_sum_sq_expand W K f hsym
  have hS2 : 0 ≤ ∑ i in Finset.range K, ∑ j in Finset.range K, W i j * (f i - f j) ^ 2 :=
    Finset.sum_nonneg (fun i _ =>
      Finset.sum_nonneg (fun j _ => mul_nonneg (hnn i j) (sq_nonneg _)))
  have hD : 0 ≤ ∑ i in Finset.range K, (∑ j in Finset.range K, W i j) * f i ^ 2 :=
    Finset.sum_nonneg (fun i _ =>
      mul_nonneg (Finset.sum_nonneg (fun j _ => hnn i j)) (sq_nonneg _))
  have hS : rho * ∑ i in Finset.range K, ∑ j in Finset.range K, W i j * f i * f j
      = rho * ((∑ i in Finset.range K, (∑ j in Finset.range K, W i j) * f i ^ 2)
        - (∑ i in Finset.range K, ∑ j in Finset.range K, W i j * (f i - f j) ^ 2) / 2) := by
    rw [key]; ring
  rw [hS]
  have t1 : 0 ≤ (1 - rho)
      * ∑ i in Finset.range K, (∑ j in Finset.range K, W i j) * f i ^ 2 :=
    mul_nonneg (by linarith) hD
  have t2 : 0 ≤ rho
      * ∑ i in Finset.range K, ∑ j in Finset.range K, W i j * (f i - f j) ^ 2 :=
    mul_nonneg h0 hS2
  nlinarith [t1, t2]

lemma lerouxQuad_nonneg (rho : ℚ) (W : ℕ → ℕ → ℚ) (K : ℕ) (v : List ℚ)
    (hsym : ∀ i j, W i j = W j i) (hnn : ∀ i j, 0 ≤ W i j)
    (h0 : 0 ≤ rho) (h1 : rho ≤ 1) :
    0 ≤ lerouxQuad rho W K v := by
  have h := quad_form_nonneg rho W K (fun i => v.getD i 0) hsym hnn h0 h1
  simpa [lerouxQuad, carDegree] using h

lemma rhoMetropolis_bounds (rho step : ℚ) (accept : Bool)
    (h0 : 0 ≤ rho) (h1 : rho < 1) :
    0 ≤ rhoMetropolis rho step accept ∧ rhoMetropolis rho step accept < 1 := by
  rw [rhoMetropolis]
  split_ifs with h
  · exact ⟨h.1, h.2.1⟩
  · exact ⟨h0, h1⟩

lemma gibbsSweep_inv (d : ModelData) (cfg : McmcConfig) (r : RandDraw) (s : Params)
    (hb : 0 < cfg.bHyper) (hsym : ∀ i j, d.W i j = d.W j i) (hnn : ∀ i j, 0 ≤ d.W i j)
    (hgi : 0 < r.gammaInt) (hgs : 0 < r.gammaSlo) (hgn : 0 < r.gammaNu)
    (hs : ParamsInv s) : ParamsInv (gibbsSweep d cfg r s) := by
  obtain ⟨_, _, _, hri0, hri1, hrs0, hrs1⟩ := hs
  have hqInt : ∀ v, 0 ≤ lerouxQuad s.rhoInt d.W d.K v :=
    fun v => lerouxQuad_nonneg _ _ _ _ hsym hnn hri0 hri1.le
  have hqSlo : ∀ v, 0 ≤ lerouxQuad s.rhoSlo d.W d.K v :=
    fun v => lerouxQuad_nonneg _ _ _ _ hsym hnn hrs0 hrs1.le
  have hmi := rhoMetropolis_bounds s.rhoInt r.rhoIntStep r.rhoIntAccept hri0 hri1
  have hms := rhoMetropolis_bounds s.rhoSlo r.rhoSloStep r.rhoSloAccept hrs0 hrs1
  refine ⟨?_, ?_, ?_, hmi.1, hmi.2, hms.1, hms.2⟩
  · exact div_pos
      (add_pos_of_pos_of_nonneg hb (div_nonneg (hqInt _) (by norm_num))) hgi
  · exact div_pos
      (add_pos_of_pos_of_nonneg hb (div_nonneg (hqSlo _) (by norm_num))) hgs
  · exact div_pos
      (add_pos_of_pos_of_nonneg hb (div_nonneg (ssr_nonneg _ _ _ _ _) (by norm_num))) hgn

lemma chainState_inv (d : ModelData) (cfg : McmcConfig) (stream : ℕ → RandDraw)
    (init : Params)
    (hb : 0 < cfg.bHyper) (hsym : ∀ i j, d.W i j = d.W j i) (hnn : ∀ i j, 0 ≤ d.W i j)
    (hg : ∀ n, 0 < (stream n).gammaInt ∧ 0 < (stream n).gammaSlo ∧ 0 < (stream n).gammaNu)
    (hinit : ParamsInv init) :
    ∀ n, ParamsInv (chainState d cfg stream init n) := by
  intro n
  induction n with
  | zero => exact hinit
  | succ n ih =>
    exact gibbsSweep_inv d cfg (stream n) _ hb hsym hnn
      (hg n).1 (hg n).2.1 (hg n).2.2 ih

lemma count_multiples_list (t n : ℕ) :
    ((((List.range n).map (fun j => j + 1)).filter (fun j => j % t == 0)).length)
      = n / t := by
  induction n with
  | zero => simp
  | succ n ih =>
    rw [List.range_succ, List.map_append, List.filter_append, List.length_append, ih]
    simp only [List.map_cons, List.map_nil, List.filter_cons, List.filter_nil]
    by_cases h : (n + 1) % t = 0
    · have hd : t ∣ n + 1 := Nat.dvd_of_mod_eq_zero h
      rw [Nat.succ_div, if_pos hd]
      simp [h]
    · have hd : ¬ t ∣ n + 1 := fun hdvd => h (Nat.mod_eq_zero_of_dvd hdvd)
      rw [Nat.succ_div, if_neg hd]
      simp [h]

/-! ## Claim theorems: CAR safety and the sampler engine -/

/-- C5: for a zero-degree entity k (all adjacency weights w_kj zero) and any
rho in [0,1), the full-conditional denominator rho * sum_j w_kj + 1 - rho
equals 1 - rho, which is strictly positive (no division by zero), and the
conditional mean of phi_k — and symmetrically delta_k — falls back to the
unconditional prior mean 0; the conditional variance is tau2/(1 - rho). -/
theorem carCond_zero_degree_safe (rho tau2 : ℚ) (W : ℕ → ℕ → ℚ) (K k : ℕ)
    (phi delta : List ℚ) (h0 : 0 ≤ rho) (h1 : rho < 1) (hzero : ∀ j, W k j = 0) :
    carCondDenom rho W K k = 1 - rho ∧
    0 < carCondDenom rho W K k ∧
    carCondMean rho W K k phi = 0 ∧
    carCondMean rho W K k delta = 0 ∧
    carCondVariance tau2 rho W K k = tau2 / (1 - rho) := by
  have hdeg : carDegree W K k = 0 := by simp [carDegree, hzero]
  have hden : carCondDenom rho W K k = 1 - rho := by
    rw [carCondDenom, hdeg]; ring
  have hns : ∀ v : List ℚ, carNeighborSum W K k v = 0 := by
    intro v; simp [carNeighborSum, hzero]
  refine ⟨hden, by rw [hden]; linarith, ?_, ?_, by rw [carCondVariance, hden]⟩ <;>
    simp [carCondMean, hns]

/-- C5, witness: a concrete isolated entity with rho = 1/2. -/
theorem carCond_zero_degree_safe_witness :
    carCondDenom (1/2) demoW 3 0 = 1 - 1/2 ∧
    0 < carCondDenom (1/2) demoW 3 0 ∧
    carCondMean (1/2) demoW 3 0 [1, 2, 3] = 0 ∧
    carCondMean (1/2) demoW 3 0 [5] = 0 ∧
    carCondVariance 4 (1/2) demoW 3 0 = 4 / (1 - 1/2) :=
  carCond_zero_degree_safe (1/2) 4 demoW 3 0 [1, 2, 3] [5]
    (by norm_num) (by norm_num) (fun j => rfl)

/-- C3: a valid configuration (n_sample positive, thin dividing n_sample)
yields the retained chain, which has exactly n_sample/thin samples, each a
state of the chain at an iteration in (burn_in, burn_in + n_sample] — the
chain runs N_total = burn_in + n_sample iterations and iterations up to
burn_in are discarded; when thin does not divide n_sample the run fails with
ConfigurationError without touching the chain. -/
theorem runSampler_spec (d : ModelData) (cfg : McmcConfig) (stream : ℕ → RandDraw)
    (init : Params) :
    ((0 < cfg.nSample ∧ cfg.nSample % cfg.thin = 0) →
      runSampler d cfg stream init = Except.ok (retainedSamples d cfg stream init) ∧
      (retainedSamples d cfg stream init).length = cfg.nSample / cfg.thin ∧
      (∀ s ∈ retainedSamples d cfg stream init,
        ∃ i, cfg.burnIn < i ∧ i ≤ cfg.burnIn + cfg.nSample ∧
          s = chainState d cfg stream init i)) ∧
    (cfg.nSample % cfg.thin ≠ 0 →
      runSampler d cfg stream init = Except.error SamplerError.ConfigurationError) := by
  constructor
  · rintro ⟨h1, h2⟩
    refine ⟨by rw [runSampler, if_pos ⟨h1, h2⟩], ?_, ?_⟩
    · rw [retainedSamples, List.length_map, count_multiples_list]
    · intro s hs
      rcases List.mem_map.mp hs with ⟨j, hj, rfl⟩
      rcases List.mem_filter.mp hj with ⟨hjr, _⟩
      rcases List.mem_map.mp hjr with ⟨j0, hj0, rfl⟩
      have hlt : j0 < cfg.nSample := List.mem_range.mp hj0
      exact ⟨cfg.burnIn + (j0 + 1), by omega, by omega, rfl⟩
  · intro h
    rw [runSampler, if_neg (fun hc => h hc.2)]

/-- C3, witness: the demonstration configuration (burn-in 2, n_sample 4,
thin 2) runs and retains n_sample/thin samples. -/
theorem runSampler_spec_witness :
    runSampler demoData demoCfg demoStream demoInit
      = Except.ok (retainedSamples demoData demoCfg demoStream demoInit) ∧
    (retainedSamples demoData demoCfg demoStream demoInit).length
      = demoCfg.nSample / demoCfg.thin :=
  ⟨((runSampler_spec demoData demoCfg demoStream demoInit).1 (by norm_num [demoCfg])).1,
   ((runSampler_spec demoData demoCfg demoStream demoInit).1 (by norm_num [demoCfg])).2.1⟩

/-- C4: with positive Inverse-Gamma scale hyperparameter, a symmetric
nonnegative weight function, positive Gamma variates, and an initial state
satisfying the invariant, every state of the chain — in particular every
retained posterior sample — has tau2_int, tau2_slo, nu2 strictly positive and
rho_int, rho_slo in [0,1): no sweep ever stores a violating sample. -/
theorem sampler_invariants (d : ModelData) (cfg : McmcConfig) (stream : ℕ → RandDraw)
    (init : Params)
    (hb : 0 < cfg.bHyper) (hsym : ∀ i j, d.W i j = d.W j i) (hnn : ∀ i j, 0 ≤ d.W i j)
    (hg : ∀ n, 0 < (stream n).gammaInt ∧ 0 < (stream n).gammaSlo ∧ 0 < (stream n).gammaNu)
    (hinit : ParamsInv init) :
    (∀ n, ParamsInv (chainState d cfg stream init n)) ∧
    (∀ s ∈ retainedSamples d cfg stream init, ParamsInv s) := by
  have h := chainState_inv d cfg stream init hb hsym hnn hg hinit
  refine ⟨h, ?_⟩
  intro s hs
  rcases List.mem_map.mp hs with ⟨j, _, rfl⟩
  exact h _

/-- C4, witness: the invariant holds at iteration 3 of the demonstration
run. -/
theorem sampler_invariants_witness :
    ParamsInv (chainState demoData demoCfg demoStream demoInit 3) :=
  (sampler_invariants demoData demoCfg demoStream demoInit
    (by norm_num [demoCfg])
    (fun i j => rfl)
    (fun i j => le_refl 0)
    (fun n => ⟨one_pos, one_pos, one_pos⟩)
    (by norm_num [ParamsInv, demoInit])).1 3

/-- C9: the engine is a deterministic function of seed, configuration, data
and initial state — two runs with identical inputs and equal seeds produce
identical retained chains. -/
theorem runSeeded_deterministic (d1 d2 : ModelData) (cfg1 cfg2 : McmcConfig)
    (seed1 seed2 : ℕ) (init1 init2 : Params)
    (hd : d1 = d2) (hc : cfg1 = cfg2) (hs : seed1 = seed2) (hi : init1 = init2) :
    runSeeded d1 cfg1 seed1 init1 = runSeeded d2 cfg2 seed2 init2 := by
  subst hd; subst hc; subst hs; subst hi; rfl

/-- C9, witness: two runs at seed 42 with the demonstration inputs agree. -/
theorem runSeeded_deterministic_witness :
    runSeeded demoData demoCfg 42 demoInit = runSeeded demoData demoCfg 42 demoInit :=
  runSeeded_deterministic demoData demoData demoCfg demoCfg 42 42 demoInit demoInit
    rfl rfl rfl rfl

/-- C6 amended: the trend is t* = (t - mean(t)) / N with N the number of time
indices (not span = max - min), computed once from the full list of time
indices, and it is centered (the trend values of the data's times sum to
zero); moreover the same t* is used in every likelihood-based update and in
fitted-value prediction — the time indices reach the engine and the
summarizer only through the single function tstar of the full time list, so
two data sets that agree on t* (and on entities, weights and observations)
produce identical fitted values, identical residual sums of squares, and
identical chains. -/
theorem tstar_formula_and_single_use :
    (∀ ts : List ℚ, ts ≠ [] →
      (ts.map (tstar ts)).sum = 0 ∧
      ∀ t, tstar ts t * ts.length = t - rMean ts) ∧
    (∀ d1 d2 : ModelData, d1.K = d2.K → d1.W = d2.W → d1.obs = d2.obs →
      (∀ t, tstar d1.times t = tstar d2.times t) →
      (∀ beta phi delta alpha o,
        fittedValue d1 beta phi delta alpha o = fittedValue d2 beta phi delta alpha o) ∧
      (∀ beta phi delta alpha,
        ssr d1 beta phi delta alpha = ssr d2 beta phi delta alpha) ∧
      (∀ cfg stream init n,
        chainState d1 cfg stream init n = chainState d2 cfg stream init n)) := by
  refine ⟨tstar_sum_and_mul, ?_⟩
  intro d1 d2 hK hW hobs ht
  have hlp : ∀ beta phi delta alpha o,
      linPred d1 beta phi delta alpha o = linPred d2 beta phi delta alpha o := by
    intro beta phi delta alpha o
    simp [linPred, ht]
  have hssr : ∀ beta phi delta alpha,
      ssr d1 beta phi delta alpha = ssr d2 beta phi delta alpha := by
    intro beta phi delta alpha
    rw [ssr, ssr, hobs]
    refine congrArg List.sum (List.map_congr_left ?_)
    intro o _
    cases hres : o.response <;> simp [hlp]
  refine ⟨fun beta phi delta alpha o => hlp beta phi delta alpha o, hssr, ?_⟩
  intro cfg stream init n
  induction n with
  | zero => rfl
  | succ n ih =>
    show gibbsSweep d1 cfg (stream n) (chainState d1 cfg stream init n)
        = gibbsSweep d2 cfg (stream n) (chainState d2 cfg stream init n)
    rw [ih]
    simp only [gibbsSweep, hK, hW, hssr]

/-- C6 amended, witness: centering on the times 1, 2, 3, and invariance of
SSR and of the chain under replacing the demonstration data's time list by a
permutation with the same t*. -/
theorem tstar_formula_and_single_use_witness :
    (([1, 2, 3] : List ℚ).map (tstar [1, 2, 3])).sum = 0 ∧
    ssr demoData [] [0] [0] 0 = ssr demoDataPerm [] [0] [0] 0 ∧
    chainState demoData demoCfg demoStream demoInit 2
      = chainState demoDataPerm demoCfg demoStream demoInit 2 := by
  have ht : ∀ t, tstar demoData.times t = tstar demoDataPerm.times t := by
    intro t
    norm_num [tstar, rMean, demoData, demoDataPerm]
  exact ⟨(tstar_formula_and_single_use.1 [1, 2, 3] (by simp)).1,
    (tstar_formula_and_single_use.2 demoData demoDataPerm rfl rfl rfl ht).2.1 [] [0] [0] 0,
    (tstar_formula_and_single_use.2 demoData demoDataPerm rfl rfl rfl ht).2.2
      demoCfg demoStream demoInit 2⟩

end HeroinEDA
